import Mathlib

/-!
Verification of the MIDI generation pipeline of the miditool repository.

JavaScript strings are modelled as lists of UTF-16 code units (`List Nat`),
and byte arrays (`Uint8Array`) as lists of naturals below 256.  The
definitions below are shallow embeddings of the functions in
`src/midi.ts` and `src/pipeline.ts`; file-system effects are modelled by
explicit state passing over an association list of written files.
-/

set_option maxRecDepth 20000

namespace MidiTool

/-- Code units of a string literal, for writing concrete JS strings. -/
def str (s : String) : List Nat := s.data.map Char.toNat

/-- The character class `\s` of JavaScript regular expressions
(ECMAScript WhiteSpace together with LineTerminator). -/
def isJsWhitespace (n : Nat) : Bool :=
  if n = 32 ∨ n = 9 ∨ n = 10 ∨ n = 11 ∨ n = 12 ∨ n = 13 ∨ n = 160 ∨ n = 5760 ∨
      (8192 ≤ n ∧ n ≤ 8202) ∨ n = 8232 ∨ n = 8233 ∨ n = 8239 ∨ n = 8287 ∨
      n = 12288 ∨ n = 65279 then true else false

/-- Hexadecimal digit characters `[0-9A-Fa-f]`. -/
def isHexDigitN (n : Nat) : Bool :=
  if (48 ≤ n ∧ n ≤ 57) ∨ (65 ≤ n ∧ n ≤ 70) ∨ (97 ≤ n ∧ n ≤ 102) then true else false

/-- Numeric value of a hexadecimal digit character, if any. -/
def hexVal (n : Nat) : Option Nat :=
  if 48 ≤ n ∧ n ≤ 57 then some (n - 48)
  else if 65 ≤ n ∧ n ≤ 70 then some (n - 55)
  else if 97 ≤ n ∧ n ≤ 102 then some (n - 87)
  else none

/-- `s.toUpperCase()` restricted to ASCII, per code unit. -/
def asciiUpperChar (n : Nat) : Nat := if 97 ≤ n ∧ n ≤ 122 then n - 32 else n

/-- `s.toLowerCase()` restricted to ASCII, per code unit. -/
def asciiLowerChar (n : Nat) : Nat := if 65 ≤ n ∧ n ≤ 90 then n + 32 else n

/-- `s.toUpperCase()` on a whole string. -/
def jsToUpper (s : List Nat) : List Nat := s.map asciiUpperChar

/-- `s.toLowerCase()` on a whole string. -/
def jsToLower (s : List Nat) : List Nat := s.map asciiLowerChar

/-- `l` starts with `p` (the JS `startsWith` / prefix test used below). -/
def startsWithL : List Nat → List Nat → Bool
  | _, [] => true
  | [], _ :: _ => false
  | a :: l, b :: p => a == b && startsWithL l p

/-- Offset of the first occurrence of `pat` in `l`, as in `String.indexOf`. -/
def idxAux (pat : List Nat) : List Nat → Option Nat
  | [] => if pat.isEmpty then some 0 else none
  | c :: rest =>
    if startsWithL (c :: rest) pat then some 0
    else (idxAux pat rest).map (· + 1)

/-- `s.indexOf(pat)` (returning `none` for `-1`). -/
def jsIndexOf (s pat : List Nat) : Option Nat := idxAux pat s

/-- `s.indexOf(pat, start)` (returning `none` for `-1`). -/
def jsIndexOfFrom (s pat : List Nat) (start : Nat) : Option Nat :=
  (idxAux pat (s.drop start)).map (· + start)

/-- `s.includes(pat)` / substring containment. -/
def jsIncludes (s pat : List Nat) : Bool := (jsIndexOf s pat).isSome

/-- Remove trailing JS whitespace. -/
def dropTrailingWs (s : List Nat) : List Nat :=
  (s.reverse.dropWhile isJsWhitespace).reverse

/-- `s.trim()`. -/
def jsTrim (s : List Nat) : List Nat :=
  dropTrailingWs (s.dropWhile isJsWhitespace)

/-- `s.slice(a, b)` for `a ≤ b`. -/
def sliceN (s : List Nat) (a b : Nat) : List Nat := (s.drop a).take (b - a)

/-- Replace each maximal run of JS whitespace by a single space,
modelling `replace(/\s+/g, " ")`. -/
def collapseWs : List Nat → List Nat
  | [] => []
  | [c] => if isJsWhitespace c then [32] else [c]
  | c1 :: c2 :: rest =>
    if isJsWhitespace c1 then
      if isJsWhitespace c2 then collapseWs (c2 :: rest)
      else 32 :: collapseWs (c2 :: rest)
    else c1 :: collapseWs (c2 :: rest)

/-- Typed error taxonomy of the codec, extractor and persistence layer. -/
inductive MidiError where
  | malformedHex
  | noMidiFound
  | invalidMidi
deriving DecidableEq

/-! ## Hex/Binary codec (`src/midi.ts`) -/

/-- The whitespace removal `hexString.replace(/[\s\n]+/g, "")`. -/
def cleanHexChars (s : List Nat) : List Nat := s.filter (fun c => !(isJsWhitespace c))

/-- `parseInt(g, 16)` on a whitespace-free two-character group `g`:
optional sign, optional `0x`/`0X` prefix, then the longest prefix of
hexadecimal digits; `none` models `NaN`. -/
def parseIntHex2 (a b : Nat) : Option Int :=
  if a = 43 then (hexVal b).map (fun v => (v : Int))
  else if a = 45 then (hexVal b).map (fun v => -(v : Int))
  else if a = 48 ∧ (b = 120 ∨ b = 88) then none
  else
    match hexVal a with
    | none => none
    | some v1 =>
      match hexVal b with
      | none => some (v1 : Int)
      | some v2 => some ((16 * v1 + v2 : Nat) : Int)

/-- Storing a JS number into a `Uint8Array` slot: reduction modulo 256. -/
def toUint8 (v : Int) : Nat := (v % 256).toNat

/-- The parsing loop of `hexToBytes`: one byte per two characters,
failing at the first group on which `parseInt` yields `NaN`. -/
def parseHexPairs : List Nat → Except MidiError (List Nat)
  | [] => .ok []
  | [_] => .error .malformedHex
  | a :: b :: rest =>
    match parseIntHex2 a b with
    | none => .error .malformedHex
    | some v =>
      match parseHexPairs rest with
      | .error e => .error e
      | .ok bs => .ok (toUint8 v :: bs)

/-- `hexToBytes` from `src/midi.ts`: strip whitespace, reject odd length,
then parse two characters per byte. -/
def hexToBytes (s : List Nat) : Except MidiError (List Nat) :=
  let clean := cleanHexChars s
  if clean.length % 2 ≠ 0 then .error .malformedHex
  else parseHexPairs clean

/-- `byte.toString(16)`: lowercase base-16 digits of a natural number. -/
def jsToString16 (n : Nat) : List Nat := (Nat.toDigits 16 n).map Char.toNat

/-- `.padStart(2, "0")`. -/
def padStart2 (l : List Nat) : List Nat :=
  if l.length ≥ 2 then l else List.replicate (2 - l.length) 48 ++ l

/-- One byte formatted as in `bytesToHex`: `byte.toString(16).padStart(2, "0")`. -/
def byteHex (n : Nat) : List Nat := padStart2 (jsToString16 n)

/-- `Array.prototype.join(" ")`. -/
def joinSpace : List (List Nat) → List Nat
  | [] => []
  | [a] => a
  | a :: b :: rest => a ++ 32 :: joinSpace (b :: rest)

/-- `bytesToHex` from `src/midi.ts`. -/
def bytesToHex (bytes : List Nat) : List Nat := joinSpace (bytes.map byteHex)

/-- `isValidMidi` from `src/midi.ts`: at least four bytes and the
`String.fromCharCode` rendering of the first four equals `"MThd"`. -/
def isValidMidi (bytes : List Nat) : Bool :=
  if bytes.length < 4 then false
  else bytes.take 4 == str "MThd"

/-- File-system state: written files and created directories. -/
structure FS where
  files : List (List Nat × List Nat)
  dirs : List (List Nat)
deriving DecidableEq

/-- The empty file system. -/
def fs0 : FS := ⟨[], []⟩

/-- `dirname` of `node:path` for ordinary slash-separated paths:
everything before the last `/`, or `"."` if there is none. -/
def dirnameN (p : List Nat) : List Nat :=
  let r := p.reverse.dropWhile (fun c => c != 47)
  if r.isEmpty then str "." else (r.drop 1).reverse

/-- `mkdirSync(dir, { recursive: true })` guarded by `existsSync`. -/
def ensureDir (fs : FS) (d : List Nat) : FS :=
  if d ∈ fs.dirs then fs else { fs with dirs := d :: fs.dirs }

/-- `saveMidiFile` from `src/midi.ts`: ensure the directory, reject bytes
failing `isValidMidi`, otherwise record the write and return the path. -/
def saveMidiFile (midiData : List Nat) (filePath : List Nat) (fs : FS) :
    Except MidiError (List Nat) × FS :=
  let fs1 := ensureDir fs (dirnameN filePath)
  if isValidMidi midiData then
    (.ok filePath, { fs1 with files := (filePath, midiData) :: fs1.files })
  else
    (.error .invalidMidi, fs1)

/-! ## Response extractor and critical-issue classifier (`src/pipeline.ts`) -/

/-- The upper-case MIDI header token `"4D 54 68 64"`. -/
def upperTok : List Nat := str "4D 54 68 64"

/-- The lower-case MIDI header token `"4d 54 68 64"`. -/
def lowerTok : List Nat := str "4d 54 68 64"

/-- The track header token `"4D 54 72 6B"`. -/
def mtrkTok : List Nat := str "4D 54 72 6B"

/-- The trailing-prose end markers of `extractMidiHex`, in source order.
The fourth marker is the phrase starting with the word I, an apostrophe
(code 39) and the letters ve, then the word generated. -/
def endMarkers : List (List Nat) :=
  [str "```", str "Note:", str "This MIDI file",
   str "I" ++ 39 :: str "ve generated", str "The above MIDI", str "\n\n"]

/-- The end-marker scan of `extractMidiHex`: fold over the markers, taking
the smallest `indexOf(marker, headerIndex + 10)` hit, defaulting to the
text length. -/
def computeEndIndex (response : List Nat) (headerIdx : Nat) : Nat :=
  endMarkers.foldl
    (fun e m =>
      match jsIndexOfFrom response m (headerIdx + 10) with
      | some j => if j < e then j else e
      | none => e)
    response.length

/-- The cleanup `replace(/[^0-9A-Fa-f\s]/g, "")`. -/
def filterHexWs (s : List Nat) : List Nat :=
  s.filter (fun c => isHexDigitN c || isJsWhitespace c)

/-- `extractMidiHex` from `src/pipeline.ts`: find the upper-case header
token, truncate at the earliest end marker, trim, delete non-hex
non-whitespace characters and collapse whitespace runs; if only the
lower-case token occurs, return the trimmed tail from it unchanged. -/
def extractMidiHex (response : List Nat) : Except MidiError (List Nat) :=
  match jsIndexOf response upperTok with
  | none =>
    match jsIndexOf response lowerTok with
    | none => .error .noMidiFound
    | some i => .ok (jsTrim (response.drop i))
  | some idx =>
    let endIndex := computeEndIndex response idx
    let midiHex := jsTrim (sliceN response idx endIndex)
    .ok (collapseWs (filterHexWs midiHex))

/-- The fixed critical-failure phrase list of `checkForCriticalIssues`. -/
def criticalIssueKeywords : List (List Nat) :=
  [str "missing note-off", str "no note-off", str "note-on and note-off mismatch",
   str "not properly paired", str "note-off events do not match",
   str "not correctly paired", str "not be turned off properly",
   str "lack of note-off", str "without note-off", str "no corresponding note-off",
   str "notes to play forever", str "improper note pairing", str "incorrect channel",
   str "incorrect note", str "invalid header", str "corrupt", str "will not play",
   str "cannot play", str "playback issue", str "critical error",
   str "severe issue", str "incorrect format"]

/-- Compound heuristic: repeated note-on without note-off phrase. -/
def heurSameNote (lowerReport : List Nat) : Bool :=
  jsIncludes lowerReport
    (str "note-on events for the same note without corresponding note-off events")

/-- Compound heuristic: track-length miscalculation. -/
def heurTrackLen (lowerReport : List Nat) : Bool :=
  jsIncludes lowerReport (str "track length") &&
    (jsIncludes lowerReport (str "miscalculated") ||
     jsIncludes lowerReport (str "incorrect") ||
     jsIncludes lowerReport (str "wrong") ||
     jsIncludes lowerReport (str "mismatch"))

/-- Compound heuristic: note turned on without being turned off. -/
def heurTurnedOn (lowerReport : List Nat) : Bool :=
  jsIncludes lowerReport (str "note") && jsIncludes lowerReport (str "turned on") &&
    jsIncludes lowerReport (str "without") && jsIncludes lowerReport (str "turned off")

/-- `checkForCriticalIssues` from `src/pipeline.ts`, in source order:
keyword scan first, then the three special-case detections returning
early, finally the keyword result. -/
def checkForCriticalIssues (validationReport : List Nat) : Bool :=
  let lowerReport := jsToLower validationReport
  let criticalFound := criticalIssueKeywords.any (fun k => jsIncludes lowerReport k)
  if heurSameNote lowerReport then true
  else if heurTrackLen lowerReport then true
  else if heurTurnedOn lowerReport then true
  else criticalFound

/-! ## Generation orchestrator (`generateClipTwoPhase` in `src/pipeline.ts`)

The two external collaborators (`callLLM` and `validateMidiHex`) are
modelled as oracles indexed by the attempt number; the idea stage has its
own oracle value.  Debug log writes are a side channel and are not part
of the modelled file-system state.  Admission control (`waitForCapacity`)
is a timing construct and is outside this single-call model. -/

/-- Oracles for the external collaborators of one generation run. -/
structure Collab where
  ideaResponse : List Nat
  midiResponse : Nat → List Nat
  validate : Nat → Except Unit (List Nat)

/-- The mutable loop variables of the MIDI retry loop. -/
structure LoopState where
  midiHex : List Nat
  midiBytes : List Nat
  validationPassed : Bool
  validationReport : List Nat
deriving DecidableEq

/-- Initial loop state: empty hex, empty bytes, not passed, empty report. -/
def initLoopState : LoopState := ⟨[], [], false, []⟩

/-- One-shot unfolding of the retry `while` loop of `generateClipTwoPhase`.
`fuel` is `maxRetries - attempt`; the loop body runs extraction (errors
propagate), the two structural token checks and the length check (failures
continue), decoding (errors propagate), then LLM validation (collaborator
errors continue, critical reports continue, otherwise the pass flag is
set).  Returns the final loop state and the attempt counter. -/
def loopGo (collab : Collab) : Nat → Nat → LoopState →
    Except MidiError (LoopState × Nat)
  | 0, attempt, st => .ok (st, attempt)
  | fuel + 1, attempt, st =>
    if st.validationPassed then .ok (st, attempt)
    else
      let attempt1 := attempt + 1
      match extractMidiHex (collab.midiResponse attempt1) with
      | .error e => .error e
      | .ok midiHex =>
        let st1 : LoopState := { st with midiHex := midiHex }
        if !(startsWithL (jsToUpper midiHex) upperTok) then
          loopGo collab fuel attempt1 st1
        else if !(jsIncludes (jsToUpper midiHex) mtrkTok) then
          loopGo collab fuel attempt1 st1
        else
          match hexToBytes midiHex with
          | .error e => .error e
          | .ok midiBytes =>
            let st2 : LoopState := { st1 with midiBytes := midiBytes }
            if midiBytes.length < 14 then loopGo collab fuel attempt1 st2
            else
              match collab.validate attempt1 with
              | .error _ => loopGo collab fuel attempt1 st2
              | .ok report =>
                let st3 : LoopState := { st2 with validationReport := report }
                if checkForCriticalIssues report then loopGo collab fuel attempt1 st3
                else loopGo collab fuel attempt1 { st3 with validationPassed := true }

/-- The fields of the returned clip that the generation run updates. -/
structure GenResult where
  prompt : List Nat
  midiData : List Nat
  rawMidiBytes : List Nat
deriving DecidableEq

/-- `join(outputDir, project.id, group.id, track.id, filename)`. -/
def joinP : List (List Nat) → List Nat
  | [] => []
  | [a] => a
  | a :: b :: rest => a ++ 47 :: joinP (b :: rest)

/-- The canonical output path `<dir>/<clipId>.mid`. -/
def canonicalPath (outDir pid gid tid cid : List Nat) : List Nat :=
  joinP [outDir, pid, gid, tid, cid ++ str ".mid"]

/-- The invalid-marked path `<dir>/<clipId>.best-attempt.invalid.mid`. -/
def invalidPath (outDir pid gid tid cid : List Nat) : List Nat :=
  joinP [outDir, pid, gid, tid, cid ++ str ".best-attempt.invalid.mid"]

/-- `generateClipTwoPhase` from `src/pipeline.ts` (single-call semantics):
run the idea stage, run the bounded MIDI retry loop, then persist either
to the canonical path (validation passed) or to the invalid-marked path
(attempts exhausted); any error escaping the loop or the save is rethrown
by the outer catch. -/
def generateClipTwoPhase (collab : Collab) (pid gid tid cid outDir : List Nat)
    (maxRetries : Nat) (fs : FS) : Except MidiError GenResult × FS :=
  let idea := collab.ideaResponse
  match loopGo collab maxRetries 0 initLoopState with
  | .error e => (.error e, fs)
  | .ok (st, _) =>
    if st.validationPassed then
      match saveMidiFile st.midiBytes (canonicalPath outDir pid gid tid cid) fs with
      | (.error e, fs') => (.error e, fs')
      | (.ok _, fs') => (.ok ⟨idea, st.midiHex, st.midiBytes⟩, fs')
    else
      match saveMidiFile st.midiBytes (invalidPath outDir pid gid tid cid) fs with
      | (.error e, fs') => (.error e, fs')
      | (.ok _, fs') => (.ok ⟨idea, st.midiHex, st.midiBytes⟩, fs')

/-- An attempt that reaches LLM validation and is classified critical:
extraction succeeds, both structural token checks pass, decoding succeeds
with at least 14 bytes, and the validator report has critical issues. -/
def attemptCritical (collab : Collab) (n : Nat) : Bool :=
  match extractMidiHex (collab.midiResponse n) with
  | .error _ => false
  | .ok midiHex =>
    if !(startsWithL (jsToUpper midiHex) upperTok) then false
    else if !(jsIncludes (jsToUpper midiHex) mtrkTok) then false
    else
      match hexToBytes midiHex with
      | .error _ => false
      | .ok midiBytes =>
        if midiBytes.length < 14 then false
        else
          match collab.validate n with
          | .error _ => false
          | .ok report => checkForCriticalIssues report

/-- Consecutive two-character groups of a character list. -/
def pairUp : List Nat → List (Nat × Nat)
  | a :: b :: rest => (a, b) :: pairUp rest
  | _ => []

/-- The byte produced for one two-character group. -/
def pairByte (p : Nat × Nat) : Nat := toUint8 ((parseIntHex2 p.1 p.2).getD 0)

/-- Executable check that one byte below 256 formats as exactly two
non-whitespace lower-case hexadecimal characters that `parseInt` maps
back to the same byte. -/
def byteHexOK (k : Nat) : Bool :=
  match byteHex k with
  | [a, b] =>
    !(isJsWhitespace a) && !(isJsWhitespace b) &&
      decide ((parseIntHex2 a b).map toUint8 = some k) &&
      isHexDigitN a && isHexDigitN b &&
      decide (asciiLowerChar a = a) && decide (asciiLowerChar b = b)
  | _ => false

/-- Adjacent double spaces test: true when no two consecutive characters
are both spaces. -/
def noTwoSpaces : List Nat → Bool
  | a :: b :: rest => !(a == 32 && b == 32) && noTwoSpaces (b :: rest)
  | _ => true

/-- Some end marker occurs at position `j` of `resp`. -/
def anyMarkerAt (resp : List Nat) (j : Nat) : Bool :=
  endMarkers.any (fun m => startsWithL (resp.drop j) m)

/-- Linear scan for the first position at or after `j` where some end
marker occurs, with explicit fuel. -/
def scanMarkerAux (resp : List Nat) : Nat → Nat → Nat
  | 0, _ => resp.length
  | fuel + 1, j => if anyMarkerAt resp j then j else scanMarkerAux resp fuel (j + 1)

/-- First position at or after `start` where some end marker occurs, or
the text length if none: the specification-side earliest-marker search. -/
def scanMarker (resp : List Nat) (start : Nat) : Nat :=
  scanMarkerAux resp (resp.length - start) start

/-- A well-formed concrete MIDI response (the test melody of
`createTestMidiFile`): header chunk, track chunk, 42 bytes. -/
def goodResp : List Nat :=
  str "4D 54 68 64 00 00 00 06 00 01 00 01 01 E0 4D 54 72 6B 00 00 00 14 00 90 3C 64 83 60 80 3C 00 00 FF 2F 00"

/-- Oracles for a run whose validator always reports a critical error. -/
def critCollab : Collab :=
  ⟨str "idea", fun _ => goodResp, fun _ => .ok (str "critical error")⟩

/-- Oracles for a run whose first attempt has no MIDI in the response. -/
def abortCollab : Collab :=
  ⟨str "idea", fun n => if n = 1 then str "no midi here" else goodResp,
   fun _ => .ok (str "all good")⟩

/-- Oracles for a run whose first attempt is critical and whose second
response has no MIDI. -/
def abort2Collab : Collab :=
  ⟨str "idea", fun n => if n = 2 then str "nothing" else goodResp,
   fun _ => .ok (str "critical error")⟩

end MidiTool

deriving instance DecidableEq for Except

namespace MidiTool

/-! ## Auxiliary lemmas and claim theorems -/

/-- The directory-creation step never touches the written files. -/
theorem ensureDir_files (fs : FS) (d : List Nat) : (ensureDir fs d).files = fs.files := by
  unfold ensureDir
  split <;> rfl

/-- Characterization of the parsing loop of `hexToBytes` on even-length
character lists: it succeeds exactly when `parseInt` accepts every group,
and then yields one byte per group in order. -/
theorem parseHexPairs_spec : ∀ l : List Nat, l.length % 2 = 0 →
    ((∃ bs, parseHexPairs l = .ok bs) ↔
      ∀ p ∈ pairUp l, (parseIntHex2 p.1 p.2).isSome = true) ∧
    (∀ bs, parseHexPairs l = .ok bs → bs = (pairUp l).map pairByte) := by
  intro l
  induction l using pairUp.induct with
  | case1 a b rest ih =>
    intro hev
    have hev' : rest.length % 2 = 0 := by
      simp only [List.length_cons] at hev
      omega
    obtain ⟨ih1, ih2⟩ := ih hev'
    constructor
    · constructor
      · rintro ⟨bs, hbs⟩ p hp
        rw [parseHexPairs] at hbs
        rcases hpi : parseIntHex2 a b with _ | v
        · rw [hpi] at hbs; exact absurd hbs (by simp)
        · rw [hpi] at hbs
          rcases hrest : parseHexPairs rest with e | bs'
          · rw [hrest] at hbs; exact absurd hbs (by simp)
          · rcases List.mem_cons.mp (by simpa [pairUp] using hp) with rfl | hp'
            · simp [hpi]
            · exact ih1.mp ⟨bs', hrest⟩ p hp'
      · intro hall
        have hab : (parseIntHex2 a b).isSome = true := hall (a, b) (by simp [pairUp])
        rcases Option.isSome_iff_exists.mp hab with ⟨v, hv⟩
        have hrest : ∃ bs, parseHexPairs rest = .ok bs := by
          refine ih1.mpr ?_
          intro p hp
          exact hall p (by simp [pairUp, hp])
        rcases hrest with ⟨bs', hbs'⟩
        exact ⟨toUint8 v :: bs', by rw [parseHexPairs, hv, hbs']⟩
    · intro bs hbs
      rw [parseHexPairs] at hbs
      rcases hpi : parseIntHex2 a b with _ | v
      · rw [hpi] at hbs; exact absurd hbs (by simp)
      · rw [hpi] at hbs
        rcases hrest : parseHexPairs rest with e | bs'
        · rw [hrest] at hbs; exact absurd hbs (by simp)
        · rw [hrest] at hbs
          rw [← Except.ok.inj hbs, pairUp, List.map_cons, ih2 bs' hrest]
          simp [pairByte, hpi]
  | case2 l h1 =>
    intro hev
    rcases l with _ | ⟨a, _ | ⟨b, rest⟩⟩
    · refine ⟨⟨fun _ => by simp [pairUp], fun _ => ⟨[], rfl⟩⟩, ?_⟩
      intro bs hbs
      simp only [parseHexPairs] at hbs
      simp [← Except.ok.inj hbs, pairUp]
    · simp at hev
    · exact absurd rfl (h1 a b rest)

/-- Claim C4 (amended): `hexToBytes` strips whitespace and succeeds exactly
when the remaining character count is even and every 2-character group is
accepted by `parseInt(-, 16)` (which also accepts groups whose second
character is not a hex digit, parsing only the first, and signed groups);
on success it returns one byte per group, the `parseInt` value reduced
modulo 256, in input order. -/
theorem claim_C4 : ∀ s : List Nat,
    ((∃ bs, hexToBytes s = .ok bs) ↔
      (cleanHexChars s).length % 2 = 0 ∧
        ∀ p ∈ pairUp (cleanHexChars s), (parseIntHex2 p.1 p.2).isSome = true) ∧
    (∀ bs, hexToBytes s = .ok bs → bs = (pairUp (cleanHexChars s)).map pairByte) := by
  intro s
  by_cases hev : (cleanHexChars s).length % 2 = 0
  · obtain ⟨h1, h2⟩ := parseHexPairs_spec (cleanHexChars s) hev
    constructor
    · rw [show hexToBytes s = parseHexPairs (cleanHexChars s) by
        unfold hexToBytes; simp [hev]]
      exact ⟨fun h => ⟨hev, h1.mp h⟩, fun h => h1.mpr h.2⟩
    · intro bs hbs
      refine h2 bs ?_
      rw [← hbs]
      unfold hexToBytes
      simp [hev]
  · have herr : hexToBytes s = .error .malformedHex := by
      unfold hexToBytes
      simp [hev]
    rw [herr]
    exact ⟨by simp [hev], by simp⟩

/-- Claim C4 counterexample: the input string 4G — even length after
cleanup, and G (code 71) is not a valid hexadecimal digit — does not fail:
`parseInt("4G", 16)` parses the leading 4, so `hexToBytes` returns the
byte 4.  The claim as stated requires failure here. -/
theorem claim_C4_cex :
    hexToBytes (str "4G") = .ok [4] ∧
    (cleanHexChars (str "4G")).length % 2 = 0 ∧
    isHexDigitN 71 = false ∧ (str "4G").get? 1 = some 71 := by decide

/-- Claim C4 witness: the amended theorem applied to the input 4D. -/
theorem claim_C4_witness :
    [77] = (pairUp (cleanHexChars (str "4D"))).map pairByte :=
  (claim_C4 (str "4D")).2 [77] (by decide)

/-- Claim C10: `hexToBytes` on the empty string or any all-whitespace
string succeeds with the empty byte sequence, and `bytesToHex` of the
empty byte sequence is the empty string. -/
theorem claim_C10 :
    (∀ s : List Nat, (∀ c ∈ s, isJsWhitespace c = true) → hexToBytes s = .ok []) ∧
    bytesToHex [] = [] ∧ hexToBytes [] = .ok [] := by
  refine ⟨?_, rfl, rfl⟩
  intro s hs
  have hclean : cleanHexChars s = [] := by
    simp only [cleanHexChars, List.filter_eq_nil_iff]
    intro a ha
    simp [hs a ha]
  unfold hexToBytes
  simp [hclean, parseHexPairs]

/-- Claim C10 witness: the theorem applied to a concrete whitespace-only
string of a space, a newline and a space. -/
theorem claim_C10_witness : hexToBytes (str " \n ") = .ok [] :=
  claim_C10.1 (str " \n ") (by decide)

/-- All 256 byte values pass `byteHexOK`. -/
theorem byteHexOK_all : ∀ k : Fin 256, byteHexOK k.val = true := by decide

/-- Unpacked form of `byteHexOK_all`. -/
theorem byteHex_spec : ∀ k : Nat, k < 256 → ∃ a b, byteHex k = [a, b] ∧
    isJsWhitespace a = false ∧ isJsWhitespace b = false ∧
    (parseIntHex2 a b).map toUint8 = some k ∧
    isHexDigitN a = true ∧ isHexDigitN b = true ∧
    asciiLowerChar a = a ∧ asciiLowerChar b = b := by
  intro k hk
  have h := byteHexOK_all ⟨k, hk⟩
  unfold byteHexOK at h
  rcases hbh : byteHex k with _ | ⟨a, _ | ⟨b, _ | ⟨c, t⟩⟩⟩ <;> rw [hbh] at h
  · exact absurd h (by simp)
  · exact absurd h (by simp)
  · simp only [Bool.and_eq_true, Bool.not_eq_true', decide_eq_true_eq] at h
    obtain ⟨⟨⟨⟨⟨⟨hA, hB⟩, hC⟩, hD⟩, hE⟩, hF⟩, hG⟩ := h
    exact ⟨a, b, rfl, hA, hB, hC, hD, hE, hF, hG⟩
  · exact absurd h (by simp)

/-- Round-trip core: parsing the cleaned rendering of a byte list yields
the bytes back. -/
theorem roundtrip_aux : ∀ bs : List Nat, (∀ x ∈ bs, x < 256) →
    (cleanHexChars (bytesToHex bs)).length % 2 = 0 ∧
    parseHexPairs (cleanHexChars (bytesToHex bs)) = .ok bs := by
  intro bs
  induction bs with
  | nil => intro _; exact ⟨rfl, rfl⟩
  | cons x rest ih =>
    intro hlt
    obtain ⟨a, b, hab, hwa, hwb, hparse, -, -, -, -⟩ :=
      byteHex_spec x (hlt x (by simp))
    rcases Option.map_eq_some'.mp hparse with ⟨v, hv, hv8⟩
    rcases rest with _ | ⟨y, rest'⟩
    · have hbx : bytesToHex [x] = [a, b] := by
        simp [bytesToHex, joinSpace, hab]
      rw [hbx]
      have hcl : cleanHexChars [a, b] = [a, b] := by
        simp [cleanHexChars, List.filter, hwa, hwb]
      rw [hcl]
      refine ⟨by simp, ?_⟩
      rw [parseHexPairs, hv, parseHexPairs]
      simp [hv8]
    · obtain ⟨ihev, ihok⟩ := ih (fun z hz => hlt z (by simp [hz]))
      have hbx : bytesToHex (x :: y :: rest') = a :: b :: 32 :: bytesToHex (y :: rest') := by
        simp [bytesToHex, joinSpace, hab]
      rw [hbx]
      have hws32 : isJsWhitespace 32 = true := rfl
      have hcl : cleanHexChars (a :: b :: 32 :: bytesToHex (y :: rest')) =
          a :: b :: cleanHexChars (bytesToHex (y :: rest')) := by
        simp [cleanHexChars, List.filter, hwa, hwb, hws32]
      rw [hcl]
      constructor
      · simp only [List.length_cons]
        omega
      · rw [parseHexPairs, hv, ihok]
        simp [hv8]

/-- Claim C3: decoding the hex rendering of any byte sequence returns the
same bytes, and each byte is rendered as exactly two non-upper-case
(lower-case) hexadecimal characters. -/
theorem claim_C3 (b : List Nat) (h : ∀ x ∈ b, x < 256) :
    hexToBytes (bytesToHex b) = .ok b ∧
    ∀ x ∈ b, ∃ c d, byteHex x = [c, d] ∧ isHexDigitN c = true ∧ isHexDigitN d = true ∧
      asciiLowerChar c = c ∧ asciiLowerChar d = d := by
  obtain ⟨hev, hok⟩ := roundtrip_aux b h
  constructor
  · unfold hexToBytes
    simp [hev, hok]
  · intro x hx
    obtain ⟨c, d, hcd, -, -, -, h1, h2, h3, h4⟩ := byteHex_spec x (h x hx)
    exact ⟨c, d, hcd, h1, h2, h3, h4⟩

/-- Claim C3 witness: the round trip evaluated on the bytes 0, 77, 255. -/
theorem claim_C3_witness : hexToBytes (bytesToHex [0, 77, 255]) = .ok [0, 77, 255] :=
  (claim_C3 [0, 77, 255] (by decide)).1

/-- Claim C8: `saveMidiFile` fails with the invalid-MIDI error exactly on
byte sequences rejected by `isValidMidi` (fewer than 4 bytes or first four
bytes not MThd) and then writes no file; on accepted bytes it records the
write at the given path and returns that path. -/
theorem claim_C8 : ∀ (bytes path : List Nat) (fs : FS),
    (isValidMidi bytes = false ↔ bytes.length < 4 ∨ bytes.take 4 ≠ str "MThd") ∧
    (isValidMidi bytes = false →
      (saveMidiFile bytes path fs).1 = .error .invalidMidi ∧
      ((saveMidiFile bytes path fs).2).files = fs.files) ∧
    (isValidMidi bytes = true →
      (saveMidiFile bytes path fs).1 = .ok path ∧
      ((saveMidiFile bytes path fs).2).files = (path, bytes) :: fs.files) := by
  intro bytes path fs
  refine ⟨?_, ?_, ?_⟩
  · by_cases h4 : bytes.length < 4
    · simp [isValidMidi, h4]
    · simp [isValidMidi, h4]
  · intro hv
    unfold saveMidiFile
    rw [hv]
    exact ⟨rfl, by simp [ensureDir_files]⟩
  · intro hv
    unfold saveMidiFile
    rw [hv]
    exact ⟨rfl, by simp [ensureDir_files]⟩

/-- Claim C8 witness: the theorem applied to a one-byte (invalid) input
and to the four MThd bytes (valid) at a concrete path. -/
theorem claim_C8_witness :
    (saveMidiFile [0] (str "out/a.mid") fs0).1 = .error .invalidMidi ∧
    (saveMidiFile [77, 84, 104, 100] (str "out/a.mid") fs0).1 = .ok (str "out/a.mid") :=
  ⟨((claim_C8 [0] (str "out/a.mid") fs0).2.1 (by decide)).1,
   ((claim_C8 [77, 84, 104, 100] (str "out/a.mid") fs0).2.2 (by decide)).1⟩

/-- `startsWithL` agrees with list-append decomposition. -/
theorem startsWithL_iff : ∀ l p : List Nat, startsWithL l p = true ↔ ∃ t, l = p ++ t := by
  intro l p
  induction p generalizing l with
  | nil => simp [startsWithL]
  | cons b p ih =>
    cases l with
    | nil => simp [startsWithL]
    | cons a l =>
      simp only [startsWithL, Bool.and_eq_true, beq_iff_eq, ih]
      constructor
      · rintro ⟨rfl, t, rfl⟩
        exact ⟨t, rfl⟩
      · rintro ⟨t, ht⟩
        rw [List.cons_append] at ht
        exact ⟨(List.cons.inj ht).1, t, (List.cons.inj ht).2⟩

/-- A list starts with its own prefix. -/
theorem startsWithL_append (p t : List Nat) : startsWithL (p ++ t) p = true :=
  (startsWithL_iff _ _).mpr ⟨t, rfl⟩

/-- A nonempty pattern never starts the empty list. -/
theorem startsWithL_nil {b : Nat} {p : List Nat} : startsWithL [] (b :: p) = false := rfl

/-- Soundness of `idxAux`: a returned index is a match position. -/
theorem idxAux_some : ∀ (pat l : List Nat) (j : Nat), idxAux pat l = some j →
    startsWithL (l.drop j) pat = true := by
  intro pat l
  induction l with
  | nil =>
    intro j h
    rw [idxAux] at h
    split at h
    · cases h
      rename_i hp
      have hp' : pat = [] := by simpa using hp
      subst hp'
      rfl
    · cases h
  | cons c rest ih =>
    intro j h
    rw [idxAux] at h
    split at h
    · cases h
      simpa using (by assumption : startsWithL (c :: rest) pat = true)
    · rcases Option.map_eq_some'.mp h with ⟨j', hj', rfl⟩
      simpa using ih j' hj'

/-- Minimality of `idxAux`: no match occurs strictly before the returned
index. -/
theorem idxAux_min : ∀ (pat l : List Nat) (j : Nat), idxAux pat l = some j →
    ∀ k, k < j → startsWithL (l.drop k) pat = false := by
  intro pat l
  induction l with
  | nil =>
    intro j h k hk
    rw [idxAux] at h
    split at h
    · cases h; omega
    · cases h
  | cons c rest ih =>
    intro j h k hk
    rw [idxAux] at h
    split at h
    · cases h; omega
    · rcases Option.map_eq_some'.mp h with ⟨j', hj', rfl⟩
      cases k with
      | zero => simpa using (by simpa using (by assumption : ¬startsWithL (c :: rest) pat = true))
      | succ k' => simpa using ih j' hj' k' (by omega)

/-- Completeness of `idxAux`: a match position forces a result at or
before it. -/
theorem idxAux_exists : ∀ (pat l : List Nat) (k : Nat),
    startsWithL (l.drop k) pat = true → ∃ j, idxAux pat l = some j ∧ j ≤ k := by
  intro pat l
  induction l with
  | nil =>
    intro k hk
    rcases (startsWithL_iff _ _).mp (by simpa using hk) with ⟨t, ht⟩
    rcases List.append_eq_nil.mp ht.symm with ⟨rfl, rfl⟩
    exact ⟨0, by simp [idxAux, List.isEmpty], Nat.zero_le _⟩
  | cons c rest ih =>
    intro k hk
    by_cases hs : startsWithL (c :: rest) pat = true
    · exact ⟨0, by rw [idxAux]; simp [hs], Nat.zero_le _⟩
    · cases k with
      | zero => exact absurd (by simpa using hk) hs
      | succ k' =>
        rcases ih k' (by simpa using hk) with ⟨j, hj, hjk⟩
        exact ⟨j + 1, by rw [idxAux]; simp [hs, hj], by omega⟩

/-- A match of a nonempty pattern lies inside the list. -/
theorem idxAux_lt (pat l : List Nat) (j : Nat) (hp : pat ≠ [])
    (h : idxAux pat l = some j) : j < l.length := by
  have hs := idxAux_some pat l j h
  rcases pat with _ | ⟨b, p⟩
  · exact absurd rfl hp
  · by_contra hj
    rw [List.drop_eq_nil_of_le (by omega)] at hs
    exact absurd hs (by simp [startsWithL_nil])

/-- Soundness and bounds for `jsIndexOfFrom`. -/
theorem jsIndexOfFrom_some {resp pat : List Nat} {start j : Nat}
    (h : jsIndexOfFrom resp pat start = some j) :
    start ≤ j ∧ startsWithL (resp.drop j) pat = true ∧
      (pat ≠ [] → j < resp.length) := by
  rcases Option.map_eq_some'.mp h with ⟨j0, hj0, rfl⟩
  have hs := idxAux_some pat (resp.drop start) j0 hj0
  rw [List.drop_drop] at hs
  refine ⟨by omega, by rwa [Nat.add_comm start j0] at hs, ?_⟩
  intro hp
  have := idxAux_lt pat (resp.drop start) j0 hp hj0
  rw [List.length_drop] at this
  omega

/-- Minimality for `jsIndexOfFrom`. -/
theorem jsIndexOfFrom_min {resp pat : List Nat} {start j : Nat}
    (h : jsIndexOfFrom resp pat start = some j) :
    ∀ k, start ≤ k → k < j → startsWithL (resp.drop k) pat = false := by
  rcases Option.map_eq_some'.mp h with ⟨j0, hj0, rfl⟩
  intro k hk1 hk2
  have := idxAux_min pat (resp.drop start) j0 hj0 (k - start) (by omega)
  rw [List.drop_drop, Nat.add_comm start (k - start), Nat.sub_add_cancel hk1] at this
  exact this

/-- Emptiness for `jsIndexOfFrom`: no match at or after `start`. -/
theorem jsIndexOfFrom_none {resp pat : List Nat} {start : Nat}
    (h : jsIndexOfFrom resp pat start = none) :
    ∀ k, start ≤ k → startsWithL (resp.drop k) pat = false := by
  intro k hk
  by_contra hsw
  have hsw' : startsWithL ((resp.drop start).drop (k - start)) pat = true := by
    rw [List.drop_drop, Nat.add_comm start (k - start), Nat.sub_add_cancel hk]
    simpa using hsw
  rcases idxAux_exists pat (resp.drop start) (k - start) hsw' with ⟨j, hj, -⟩
  rw [jsIndexOfFrom, hj] at h
  cases h

/-- One fold step of the end-marker search. -/
def endStep (resp : List Nat) (start : Nat) (e : Nat) (m : List Nat) : Nat :=
  match jsIndexOfFrom resp m start with
  | some j => if j < e then j else e
  | none => e

/-- The end-index fold never increases the accumulator. -/
theorem endFold_le (resp : List Nat) (start : Nat) :
    ∀ (ms : List (List Nat)) (init : Nat), ms.foldl (endStep resp start) init ≤ init := by
  intro ms
  induction ms with
  | nil => intro init; simp
  | cons m ms ih =>
    intro init
    refine le_trans (ih (endStep resp start init m)) ?_
    unfold endStep
    split
    · split <;> omega
    · omega

/-- The end-index fold returns the initial value or a found index. -/
theorem endFold_cases (resp : List Nat) (start : Nat) :
    ∀ (ms : List (List Nat)) (init : Nat),
      ms.foldl (endStep resp start) init = init ∨
      ∃ m ∈ ms, jsIndexOfFrom resp m start = some (ms.foldl (endStep resp start) init) := by
  intro ms
  induction ms with
  | nil => intro init; left; rfl
  | cons m ms ih =>
    intro init
    rw [List.foldl_cons]
    rcases ih (endStep resp start init m) with h | ⟨m', hm', hfound⟩
    · rw [h]
      rcases hj : jsIndexOfFrom resp m start with _ | j
      · left
        simp [endStep, hj]
      · by_cases hji : j < init
        · refine Or.inr ⟨m, by simp, ?_⟩
          simp [endStep, hj, hji]
        · left
          simp [endStep, hj, hji]
    · exact Or.inr ⟨m', by simp [hm'], hfound⟩

/-- The end-index fold is at most every found index of every marker. -/
theorem endFold_min (resp : List Nat) (start : Nat) :
    ∀ (ms : List (List Nat)) (init : Nat), ∀ m ∈ ms, ∀ j,
      jsIndexOfFrom resp m start = some j → ms.foldl (endStep resp start) init ≤ j := by
  intro ms
  induction ms with
  | nil => intro init m hm; cases hm
  | cons m0 ms ih =>
    intro init m hm j hj
    rw [List.foldl_cons]
    rcases List.mem_cons.mp hm with rfl | hm'
    · refine le_trans (endFold_le resp start ms _) ?_
      by_cases hji : j < init
      · simp [endStep, hj, hji]
      · simp only [endStep, hj, if_neg hji]
        omega
    · exact ih _ m hm' j hj

/-- Every end marker is nonempty and none begins with the character 4. -/
theorem endMarkers_facts : ∀ m ∈ endMarkers, m ≠ [] ∧ m.head? ≠ some 52 := by decide

/-- `computeEndIndex` stays within the text. -/
theorem computeEndIndex_le (resp : List Nat) (idx : Nat) :
    computeEndIndex resp idx ≤ resp.length :=
  endFold_le resp (idx + 10) endMarkers resp.length

/-- `computeEndIndex` is the text length or a position where some marker
occurs, at or after the search start. -/
theorem computeEndIndex_occ (resp : List Nat) (idx : Nat) :
    computeEndIndex resp idx = resp.length ∨
      (idx + 10 ≤ computeEndIndex resp idx ∧
        anyMarkerAt resp (computeEndIndex resp idx) = true) := by
  rcases endFold_cases resp (idx + 10) endMarkers resp.length with h | ⟨m, hm, hfound⟩
  · left; exact h
  · right
    obtain ⟨h1, h2, -⟩ := jsIndexOfFrom_some hfound
    exact ⟨h1, by simp only [anyMarkerAt, List.any_eq_true]; exact ⟨m, hm, h2⟩⟩

/-- No marker occurs strictly between the search start and
`computeEndIndex`. -/
theorem computeEndIndex_min (resp : List Nat) (idx : Nat) :
    ∀ k, idx + 10 ≤ k → k < computeEndIndex resp idx → anyMarkerAt resp k = false := by
  intro k hk1 hk2
  by_contra hany
  have hany' : anyMarkerAt resp k = true := by simpa using hany
  rcases List.any_eq_true.mp hany' with ⟨m, hm, hsw⟩
  rcases idxAux_exists m (resp.drop (idx + 10)) (k - (idx + 10))
      (by rw [List.drop_drop, Nat.add_comm (idx + 10) (k - (idx + 10)),
              Nat.sub_add_cancel hk1]; exact hsw) with ⟨j0, hj0, hj0k⟩
  have hfound : jsIndexOfFrom resp m (idx + 10) = some (j0 + (idx + 10)) := by
    rw [jsIndexOfFrom, hj0]; rfl
  have := endFold_min resp (idx + 10) endMarkers resp.length m hm _ hfound
  have hle : computeEndIndex resp idx ≤ j0 + (idx + 10) := this
  omega

/-- Specification of the linear marker scan with exact fuel. -/
theorem scanMarkerAux_spec (resp : List Nat) :
    ∀ (fuel j : Nat), j + fuel = resp.length →
      j ≤ scanMarkerAux resp fuel j ∧
      scanMarkerAux resp fuel j ≤ resp.length ∧
      (scanMarkerAux resp fuel j = resp.length ∨
        anyMarkerAt resp (scanMarkerAux resp fuel j) = true) ∧
      (∀ k, j ≤ k → k < scanMarkerAux resp fuel j → anyMarkerAt resp k = false) := by
  intro fuel
  induction fuel with
  | zero =>
    intro j hj
    rw [scanMarkerAux]
    exact ⟨by omega, le_rfl, Or.inl rfl, fun k h1 h2 => by omega⟩
  | succ fuel ih =>
    intro j hj
    rw [scanMarkerAux]
    by_cases hany : anyMarkerAt resp j = true
    · rw [if_pos hany]
      exact ⟨le_rfl, by omega, Or.inr hany, fun k h1 h2 => by omega⟩
    · rw [if_neg hany]
      obtain ⟨h1, h2, h3, h4⟩ := ih (j + 1) (by omega)
      refine ⟨by omega, h2, h3, ?_⟩
      intro k hk1 hk2
      rcases Nat.eq_or_lt_of_le hk1 with rfl | hk1'
      · simpa using hany
      · exact h4 k (by omega) hk2

/-- The fold over per-marker `indexOf` searches equals the linear scan
for the earliest marker occurrence, for in-range search starts. -/
theorem computeEndIndex_eq_scanMarker (resp : List Nat) (idx : Nat)
    (hlen : idx + 10 ≤ resp.length) :
    computeEndIndex resp idx = scanMarker resp (idx + 10) := by
  obtain ⟨s1, s2, s3, s4⟩ :=
    scanMarkerAux_spec resp (resp.length - (idx + 10)) (idx + 10) (by omega)
  rw [scanMarker] at *
  set S := scanMarkerAux resp (resp.length - (idx + 10)) (idx + 10) with hS
  set E := computeEndIndex resp idx with hE
  have hEle : E ≤ resp.length := computeEndIndex_le resp idx
  rcases Nat.lt_trichotomy E S with h | h | h
  · rcases computeEndIndex_occ resp idx with hocc | ⟨hge, hany⟩
    · omega
    · have := s4 E hge h
      rw [this] at hany
      cases hany
  · exact h
  · rcases s3 with hocc | hany
    · omega
    · have := computeEndIndex_min resp idx S s1 h
      rw [this] at hany
      cases hany

/-- Characters of a collapsed string: spaces, or non-whitespace
characters of the input. -/
theorem collapseWs_chars : ∀ l : List Nat, ∀ c ∈ collapseWs l,
    c = 32 ∨ (c ∈ l ∧ isJsWhitespace c = false) := by
  intro l
  induction l using collapseWs.induct with
  | case1 => simp [collapseWs]
  | case2 c hw =>
    intro x hx
    rw [collapseWs, if_pos hw] at hx
    exact Or.inl (by simpa using hx)
  | case3 c hw =>
    intro x hx
    rw [collapseWs, if_neg hw] at hx
    exact Or.inr ⟨by simpa using hx, by simp [by simpa using hx, Bool.not_eq_true] at hw ⊢; exact hw⟩
  | case4 c1 c2 rest h1 h2 ih =>
    intro x hx
    rw [collapseWs, if_pos h1, if_pos h2] at hx
    rcases ih x hx with h | ⟨hmem, hws⟩
    · exact Or.inl h
    · exact Or.inr ⟨by simp [hmem], hws⟩
  | case5 c1 c2 rest h1 h2 ih =>
    intro x hx
    rw [collapseWs, if_pos h1, if_neg h2] at hx
    rcases List.mem_cons.mp hx with rfl | hx'
    · exact Or.inl rfl
    · rcases ih x hx' with h | ⟨hmem, hws⟩
      · exact Or.inl h
      · exact Or.inr ⟨by simp [hmem], hws⟩
  | case6 c1 c2 rest h1 ih =>
    intro x hx
    rw [collapseWs, if_neg h1] at hx
    rcases List.mem_cons.mp hx with rfl | hx'
    · exact Or.inr ⟨by simp, by simpa using h1⟩
    · rcases ih x hx' with h | ⟨hmem, hws⟩
      · exact Or.inl h
      · exact Or.inr ⟨by simp [hmem], hws⟩

/-- A collapsed string headed by a non-whitespace character keeps it. -/
theorem collapseWs_cons_head {c : Nat} (rest : List Nat)
    (h : isJsWhitespace c = false) :
    collapseWs (c :: rest) = c :: collapseWs rest ∨
      (rest = [] ∧ collapseWs (c :: rest) = [c]) := by
  rcases rest with _ | ⟨c2, rest'⟩
  · exact Or.inr ⟨rfl, by rw [collapseWs, if_neg (by simp [h])]⟩
  · exact Or.inl (by rw [collapseWs, if_neg (by simp [h])])

/-- No two adjacent spaces survive collapsing. -/
theorem collapseWs_noTwo : ∀ l : List Nat, noTwoSpaces (collapseWs l) = true := by
  intro l
  induction l using collapseWs.induct with
  | case1 => rfl
  | case2 c hw => rw [collapseWs, if_pos hw]; rfl
  | case3 c hw => rw [collapseWs, if_neg hw]; rfl
  | case4 c1 c2 rest h1 h2 ih => rw [collapseWs, if_pos h1, if_pos h2]; exact ih
  | case5 c1 c2 rest h1 h2 ih =>
    rw [collapseWs, if_pos h1, if_neg h2]
    have h2' : isJsWhitespace c2 = false := by simpa using h2
    have hc2 : c2 ≠ 32 := fun h => by rw [h] at h2'; cases h2'
    rcases collapseWs_cons_head (c := c2) rest h2' with heq | ⟨-, heq⟩
    · rw [heq]
      rw [heq] at ih
      simp [noTwoSpaces, hc2]
      simpa using ih
    · rw [heq]
      simp [noTwoSpaces, hc2]
  | case6 c1 c2 rest h1 ih =>
    rw [collapseWs, if_neg h1]
    have h1' : isJsWhitespace c1 = false := by simpa using h1
    have hc1 : c1 ≠ 32 := fun h => by rw [h] at h1'; cases h1'
    rcases hX : collapseWs (c2 :: rest) with _ | ⟨x, t⟩
    · rfl
    · rw [hX] at ih
      simp [noTwoSpaces, hc1]
      simpa using ih

/-- Trailing-whitespace removal distributes over an append whose left
part ends in the character 4 (code 52). -/
theorem dropTrailingWs_append52 (u t : List Nat) :
    dropTrailingWs ((u ++ [52]) ++ t) = (u ++ [52]) ++ dropTrailingWs t := by
  unfold dropTrailingWs
  have h1 : ((u ++ [52]) ++ t).reverse = t.reverse ++ 52 :: u.reverse := by simp
  rw [h1, List.dropWhile_append]
  have h52 : List.dropWhile isJsWhitespace (52 :: u.reverse) = 52 :: u.reverse := by
    rw [List.dropWhile_cons, if_neg (by simp [isJsWhitespace])]
  split
  · rename_i hemp
    rw [h52]
    rw [List.isEmpty_iff.mp hemp]
    simp
  · simp

/-- Trimming a string that begins with a non-whitespace character and
whose fixed head part ends in the character 4 touches only the tail. -/
theorem jsTrim_sandwich (c : Nat) (mid t : List Nat) (hc : isJsWhitespace c = false) :
    jsTrim ((c :: (mid ++ [52])) ++ t) = (c :: (mid ++ [52])) ++ dropTrailingWs t := by
  unfold jsTrim
  rw [List.cons_append, List.dropWhile_cons, if_neg (by simp [hc])]
  rw [show c :: ((mid ++ [52]) ++ t) = ((c :: mid) ++ [52]) ++ t by simp]
  rw [dropTrailingWs_append52 (c :: mid) t]
  simp

/-- Trimming after the upper-case header token. -/
theorem jsTrim_upperTok (t : List Nat) :
    jsTrim (upperTok ++ t) = upperTok ++ dropTrailingWs t := by
  rw [show (upperTok : List Nat) = 52 :: (str "D 54 68 6" ++ [52]) from by decide]
  exact jsTrim_sandwich 52 (str "D 54 68 6") t (by decide)

/-- Trimming after the lower-case header token. -/
theorem jsTrim_lowerTok (t : List Nat) :
    jsTrim (lowerTok ++ t) = lowerTok ++ dropTrailingWs t := by
  rw [show (lowerTok : List Nat) = 52 :: (str "d 54 68 6" ++ [52]) from by decide]
  exact jsTrim_sandwich 52 (str "d 54 68 6") t (by decide)

/-- The hex cleanup keeps the upper-case header token intact. -/
theorem filterHexWs_upperTok (u : List Nat) :
    filterHexWs (upperTok ++ u) = upperTok ++ filterHexWs u := by
  unfold filterHexWs
  rw [List.filter_append]
  congr 1

/-- Whitespace collapsing keeps the upper-case header token intact. -/
theorem collapseWs_upperTok (u : List Nat) :
    collapseWs (upperTok ++ u) = upperTok ++ collapseWs u := by
  rcases u with _ | ⟨c, u'⟩
  · decide
  · rw [show upperTok ++ c :: u' = 52::68::32::53::52::32::54::56::32::54::52::c::u' from rfl,
        show (upperTok : List Nat) = [52, 68, 32, 53, 52, 32, 54, 56, 32, 54, 52] from rfl]
    simp [collapseWs, isJsWhitespace]

/-- Locating the upper-case header token decomposes the text. -/
theorem jsIndexOf_upper_decomp {resp : List Nat} {idx : Nat}
    (h : jsIndexOf resp upperTok = some idx) :
    ∃ t, resp.drop idx = upperTok ++ t ∧ idx + 11 ≤ resp.length := by
  have hs := idxAux_some upperTok resp idx h
  rcases (startsWithL_iff _ _).mp hs with ⟨t, ht⟩
  refine ⟨t, ht, ?_⟩
  have hlen := congrArg List.length ht
  rw [List.length_drop, List.length_append,
      show (upperTok : List Nat).length = 11 from rfl] at hlen
  rcases le_or_lt idx resp.length with hle | hlt
  · omega
  · rw [List.drop_eq_nil_of_le (by omega)] at ht
    have := congrArg List.length ht
    rw [List.length_append, show (upperTok : List Nat).length = 11 from rfl] at this
    simp at this
    omega

/-- The truncation point lies strictly after the whole header token. -/
theorem endIndex_ge {resp : List Nat} {idx : Nat} {t : List Nat}
    (ht : resp.drop idx = upperTok ++ t) (hlen : idx + 11 ≤ resp.length) :
    idx + 11 ≤ computeEndIndex resp idx := by
  rcases computeEndIndex_occ resp idx with h | ⟨hge, hany⟩
  · omega
  · by_contra hcon
    have hE : computeEndIndex resp idx = idx + 10 := by omega
    rw [hE] at hany
    rcases List.any_eq_true.mp hany with ⟨m, hm, hsw⟩
    have hdrop : resp.drop (idx + 10) = 52 :: t := by
      rw [← List.drop_drop, ht, List.drop_append_eq_append_drop,
          show (upperTok : List Nat).drop 10 = [52] from rfl,
          show 10 - (upperTok : List Nat).length = 0 from rfl]
      rfl
    rcases m with _ | ⟨m0, m'⟩
    · exact (endMarkers_facts _ hm).1 rfl
    · rw [hdrop] at hsw
      simp only [startsWithL, Bool.and_eq_true, beq_iff_eq] at hsw
      exact (endMarkers_facts _ hm).2 (by rw [← hsw.1]; rfl)

/-- The truncated slice begins with the full upper-case header token. -/
theorem slice_decomp {resp t : List Nat} {idx E : Nat}
    (ht : resp.drop idx = upperTok ++ t) (hE : idx + 11 ≤ E) :
    sliceN resp idx E = upperTok ++ t.take (E - idx - 11) := by
  unfold sliceN
  rw [ht, List.take_append_eq_append_take,
      List.take_of_length_le (by rw [show (upperTok : List Nat).length = 11 from rfl]; omega),
      show (upperTok : List Nat).length = 11 from rfl]

/-- Claim C6: on any response containing the upper-case header token,
the extractor truncates at the earliest occurrence of any end marker at
least 10 characters past the header (linear-scan characterization of the
per-marker `indexOf` fold), then trims and cleans; and the concrete
spec example evaluates to exactly the hex run before the double newline,
with prose removed. -/
theorem claim_C6 :
    (∀ resp idx, jsIndexOf resp upperTok = some idx →
      extractMidiHex resp =
        .ok (collapseWs (filterHexWs
          (jsTrim (sliceN resp idx (scanMarker resp (idx + 10))))))) ∧
    extractMidiHex (str "blah blah 4D 54 68 64 00 00 00 06 00 01\n\nNote: this is great") =
      .ok (str "4D 54 68 64 00 00 00 06 00 01") := by
  constructor
  · intro resp idx h
    rcases jsIndexOf_upper_decomp h with ⟨t, ht, hlen⟩
    have hE := computeEndIndex_eq_scanMarker resp idx (by omega)
    simp only [extractMidiHex, h]
    rw [hE]
  · decide

/-- Claim C6 witness: the general truncation theorem applied to a
concrete response with the header at offset 6. -/
theorem claim_C6_witness :
    extractMidiHex (str "alpha 4D 54 68 64 00 11\n\nNote: end") =
      .ok (collapseWs (filterHexWs (jsTrim (sliceN
        (str "alpha 4D 54 68 64 00 11\n\nNote: end") 6
        (scanMarker (str "alpha 4D 54 68 64 00 11\n\nNote: end") 16))))) :=
  claim_C6.1 (str "alpha 4D 54 68 64 00 11\n\nNote: end") 6 (by decide)

/-- Claim C5 (amended): on every successful extraction in which the
upper-case header token occurs, the result contains only hexadecimal
digits and single spaces with no two adjacent spaces and starts with the
upper-case header token; when only the lower-case token occurs, the
result is the trimmed tail from that token (it starts with the
lower-case header token but is not cleaned). -/
theorem claim_C5 : ∀ resp r, extractMidiHex resp = .ok r →
    ((jsIndexOf resp upperTok).isSome = true →
      (∀ c ∈ r, isHexDigitN c = true ∨ c = 32) ∧ noTwoSpaces r = true ∧
        startsWithL r upperTok = true) ∧
    (jsIndexOf resp upperTok = none → startsWithL r lowerTok = true) := by
  intro resp r hr
  constructor
  · intro hsome
    rcases Option.isSome_iff_exists.mp hsome with ⟨idx, hidx⟩
    rcases jsIndexOf_upper_decomp hidx with ⟨t, ht, hlen⟩
    have hrval : r = collapseWs (filterHexWs
        (jsTrim (sliceN resp idx (computeEndIndex resp idx)))) := by
      unfold extractMidiHex at hr
      simp only [hidx] at hr
      exact (Except.ok.inj hr).symm
    have hge : idx + 11 ≤ computeEndIndex resp idx := endIndex_ge ht hlen
    have hsl := slice_decomp ht hge
    have hdecomp : r = upperTok ++ collapseWs (filterHexWs
        (dropTrailingWs (t.take (computeEndIndex resp idx - idx - 11)))) := by
      rw [hrval, hsl, jsTrim_upperTok, filterHexWs_upperTok, collapseWs_upperTok]
    refine ⟨?_, ?_, ?_⟩
    · intro c hc
      rw [hrval] at hc
      rcases collapseWs_chars _ c hc with h | ⟨hmem, hws⟩
      · exact Or.inr h
      · left
        unfold filterHexWs at hmem
        have hp := (List.mem_filter.mp hmem).2
        rw [Bool.or_eq_true, hws] at hp
        simpa using hp
    · rw [hrval]
      exact collapseWs_noTwo _
    · rw [hdecomp]
      exact startsWithL_append _ _
  · intro hnone
    unfold extractMidiHex at hr
    simp only [hnone] at hr
    rcases hlow : jsIndexOf resp lowerTok with _ | i
    · rw [hlow] at hr
      cases hr
    · rw [hlow] at hr
      have hs := idxAux_some lowerTok resp i hlow
      rcases (startsWithL_iff _ _).mp hs with ⟨t, ht⟩
      rw [← Except.ok.inj hr, ht, jsTrim_lowerTok]
      exact startsWithL_append _ _

/-- Claim C5 counterexample: when the header token occurs only in its
lower-case form, the extractor returns the raw trimmed tail, which can
contain non-hex characters — refuting the claimed invariant for the
lower-case case. -/
theorem claim_C5_cex :
    extractMidiHex (str "4d 54 68 64 !!") = .ok (str "4d 54 68 64 !!") ∧
    (str "4d 54 68 64 !!").all (fun c => isHexDigitN c || c == 32) = false := by decide

/-- Claim C5 witness: the amended theorem applied to a concrete response
containing the upper-case header token. -/
theorem claim_C5_witness :
    (∀ c ∈ str "4D 54 68 64 09", isHexDigitN c = true ∨ c = 32) ∧
      noTwoSpaces (str "4D 54 68 64 09") = true ∧
      startsWithL (str "4D 54 68 64 09") upperTok = true :=
  (claim_C5 (str "x 4D 54 68 64 09") (str "4D 54 68 64 09") (by decide)).1 (by decide)

/-- Case analysis of `asciiUpperChar`. -/
theorem asciiUpperChar_cases {c v : Nat} (h : asciiUpperChar c = v) :
    c = v ∨ (97 ≤ c ∧ c ≤ 122 ∧ c = v + 32) := by
  unfold asciiUpperChar at h
  split at h <;> omega

/-- Unpacking a critically-failing attempt: all loop gates up to and
including LLM validation succeed, and the classifier reports critical
issues. -/
theorem attemptCritical_inv {collab : Collab} {n : Nat}
    (h : attemptCritical collab n = true) :
    ∃ hx bs r, extractMidiHex (collab.midiResponse n) = .ok hx ∧
      startsWithL (jsToUpper hx) upperTok = true ∧
      jsIncludes (jsToUpper hx) mtrkTok = true ∧
      hexToBytes hx = .ok bs ∧ ¬bs.length < 14 ∧
      collab.validate n = .ok r ∧ checkForCriticalIssues r = true := by
  unfold attemptCritical at h
  split at h
  · cases h
  · rename_i hx hex
    split at h
    · cases h
    · rename_i hup
      split at h
      · cases h
      · rename_i hmtrk
        split at h
        · cases h
        · rename_i bs hbytes
          split at h
          · cases h
          · rename_i hlen
            split at h
            · cases h
            · rename_i r hval
              exact ⟨hx, bs, r, hex, by simpa using hup, by simpa using hmtrk,
                hbytes, hlen, hval, h⟩

/-- One iteration of the retry loop on a critically-failing attempt
steps to the next attempt with the new hex, bytes and report. -/
theorem loopGo_step_critical {collab : Collab} {a : Nat} {st : LoopState}
    (fuel : Nat) (hpass : st.validationPassed = false)
    (hc : attemptCritical collab (a + 1) = true) :
    ∃ hx bs r, extractMidiHex (collab.midiResponse (a + 1)) = .ok hx ∧
      hexToBytes hx = .ok bs ∧ collab.validate (a + 1) = .ok r ∧
      checkForCriticalIssues r = true ∧
      startsWithL (jsToUpper hx) upperTok = true ∧
      loopGo collab (fuel + 1) a st = loopGo collab fuel (a + 1) ⟨hx, bs, false, r⟩ := by
  rcases attemptCritical_inv hc with ⟨hx, bs, r, hex, hup, hmtrk, hbytes, hlen, hval, hcrit⟩
  refine ⟨hx, bs, r, hex, hbytes, hval, hcrit, hup, ?_⟩
  rw [loopGo, if_neg (by simp [hpass])]
  simp only [hex]
  rw [if_neg (by simp [hup]), if_neg (by simp [hmtrk])]
  simp only [hbytes]
  rw [if_neg hlen]
  simp only [hval]
  rw [if_pos hcrit]
  simp [hpass]

/-- Running the loop when every attempt within the fuel is critical:
the loop completes all attempts without passing, holding the last
attempt's hex, bytes and report. -/
theorem loopGo_all_critical {collab : Collab} :
    ∀ (fuel a : Nat) (st : LoopState), st.validationPassed = false → 0 < fuel →
      (∀ k, a < k → k ≤ a + fuel → attemptCritical collab k = true) →
      ∃ hx bs r, extractMidiHex (collab.midiResponse (a + fuel)) = .ok hx ∧
        hexToBytes hx = .ok bs ∧ collab.validate (a + fuel) = .ok r ∧
        checkForCriticalIssues r = true ∧
        startsWithL (jsToUpper hx) upperTok = true ∧
        loopGo collab fuel a st = .ok (⟨hx, bs, false, r⟩, a + fuel) := by
  intro fuel
  induction fuel with
  | zero => intro a st _ hf; omega
  | succ fuel ih =>
    intro a st hpass hf hall
    obtain ⟨hx, bs, r, hex, hbytes, hval, hcrit, hup, hstep⟩ :=
      loopGo_step_critical fuel hpass (hall (a + 1) (by omega) (by omega))
    rcases Nat.eq_zero_or_pos fuel with rfl | hpos
    · exact ⟨hx, bs, r, hex, hbytes, hval, hcrit, hup, by rw [hstep, loopGo]⟩
    · obtain ⟨hx2, bs2, r2, hex2, hbytes2, hval2, hcrit2, hup2, hrun⟩ :=
        ih (a + 1) ⟨hx, bs, false, r⟩ rfl hpos
          (fun k hk1 hk2 => hall k (by omega) (by omega))
      have hidx : a + 1 + fuel = a + (fuel + 1) := by omega
      rw [hidx] at hex2 hval2 hrun
      exact ⟨hx2, bs2, r2, hex2, hbytes2, hval2, hcrit2, hup2, by rw [hstep, hrun]⟩

/-- Running the loop up to an attempt whose extraction fails: the error
escapes the loop. -/
theorem loopGo_abort {collab : Collab} {e : MidiError} :
    ∀ (fuel a n : Nat) (st : LoopState), st.validationPassed = false →
      a < n → n ≤ a + fuel →
      (∀ k, a < k → k < n → attemptCritical collab k = true) →
      extractMidiHex (collab.midiResponse n) = .error e →
      loopGo collab fuel a st = .error e := by
  intro fuel
  induction fuel with
  | zero => intro a n st _ h1 h2; omega
  | succ fuel ih =>
    intro a n st hpass h1 h2 hall hex
    by_cases hn : n = a + 1
    · subst hn
      rw [loopGo, if_neg (by simp [hpass])]
      simp only [hex]
    · obtain ⟨hx, bs, r, -, -, -, -, -, hstep⟩ :=
        loopGo_step_critical fuel hpass (hall (a + 1) (by omega) (by omega))
      rw [hstep]
      exact ih (a + 1) n _ rfl (by omega) (by omega)
        (fun k hk1 hk2 => hall k (by omega) hk2) hex

/-- Whitespace cleanup of a string beginning with the spaced header
characters, for a non-whitespace second character. -/
theorem cleanHexChars_hdr (c1 : Nat) (h : isJsWhitespace c1 = false) (t : List Nat) :
    cleanHexChars (52 :: c1 :: 32 :: 53 :: 52 :: 32 :: 54 :: 56 :: 32 :: 54 :: 52 :: t) =
      52 :: c1 :: 53 :: 52 :: 54 :: 56 :: 54 :: 52 :: cleanHexChars t := by
  have w32 : isJsWhitespace 32 = true := rfl
  have n52 : isJsWhitespace 52 = false := rfl
  have n53 : isJsWhitespace 53 = false := rfl
  have n54 : isJsWhitespace 54 = false := rfl
  have n56 : isJsWhitespace 56 = false := rfl
  simp [cleanHexChars, List.filter, h, w32, n52, n53, n54, n56]

/-- Bytes decoded from hex whose upper-casing starts with the header
token pass the structural plausibility check. -/
theorem hexToBytes_mthd {hx bs : List Nat}
    (hup : startsWithL (jsToUpper hx) upperTok = true)
    (hbytes : hexToBytes hx = .ok bs) : isValidMidi bs = true := by
  rcases (startsWithL_iff _ _).mp hup with ⟨w, hw⟩
  unfold jsToUpper at hw
  rw [show (upperTok : List Nat) ++ w = 52::68::32::53::52::32::54::56::32::54::52::w
    from rfl] at hw
  obtain ⟨c0, t0, rfl, h0, hw⟩ := List.map_eq_cons_iff.mp hw
  obtain ⟨c1, t1, rfl, h1, hw⟩ := List.map_eq_cons_iff.mp hw
  obtain ⟨c2, t2, rfl, h2, hw⟩ := List.map_eq_cons_iff.mp hw
  obtain ⟨c3, t3, rfl, h3, hw⟩ := List.map_eq_cons_iff.mp hw
  obtain ⟨c4, t4, rfl, h4, hw⟩ := List.map_eq_cons_iff.mp hw
  obtain ⟨c5, t5, rfl, h5, hw⟩ := List.map_eq_cons_iff.mp hw
  obtain ⟨c6, t6, rfl, h6, hw⟩ := List.map_eq_cons_iff.mp hw
  obtain ⟨c7, t7, rfl, h7, hw⟩ := List.map_eq_cons_iff.mp hw
  obtain ⟨c8, t8, rfl, h8, hw⟩ := List.map_eq_cons_iff.mp hw
  obtain ⟨c9, t9, rfl, h9, hw⟩ := List.map_eq_cons_iff.mp hw
  obtain ⟨c10, t10, rfl, h10, hw⟩ := List.map_eq_cons_iff.mp hw
  have e0 : c0 = 52 := by rcases asciiUpperChar_cases h0 with h | ⟨ha, hb, hc⟩ <;> omega
  have e1 : c1 = 68 ∨ c1 = 100 := by
    rcases asciiUpperChar_cases h1 with h | ⟨ha, hb, hc⟩ <;> omega
  have e2 : c2 = 32 := by rcases asciiUpperChar_cases h2 with h | ⟨ha, hb, hc⟩ <;> omega
  have e3 : c3 = 53 := by rcases asciiUpperChar_cases h3 with h | ⟨ha, hb, hc⟩ <;> omega
  have e4 : c4 = 52 := by rcases asciiUpperChar_cases h4 with h | ⟨ha, hb, hc⟩ <;> omega
  have e5 : c5 = 32 := by rcases asciiUpperChar_cases h5 with h | ⟨ha, hb, hc⟩ <;> omega
  have e6 : c6 = 54 := by rcases asciiUpperChar_cases h6 with h | ⟨ha, hb, hc⟩ <;> omega
  have e7 : c7 = 56 := by rcases asciiUpperChar_cases h7 with h | ⟨ha, hb, hc⟩ <;> omega
  have e8 : c8 = 32 := by rcases asciiUpperChar_cases h8 with h | ⟨ha, hb, hc⟩ <;> omega
  have e9 : c9 = 54 := by rcases asciiUpperChar_cases h9 with h | ⟨ha, hb, hc⟩ <;> omega
  have e10 : c10 = 52 := by rcases asciiUpperChar_cases h10 with h | ⟨ha, hb, hc⟩ <;> omega
  subst e0 e2 e3 e4 e5 e6 e7 e8 e9 e10
  unfold hexToBytes at hbytes
  simp only [ne_eq] at hbytes
  split at hbytes
  · cases hbytes
  · have hcl := cleanHexChars_hdr c1 (by rcases e1 with rfl | rfl <;> decide) t10
    rw [hcl] at hbytes
    have hp1 : parseIntHex2 52 c1 = some 77 := by rcases e1 with rfl | rfl <;> decide
    simp only [parseHexPairs, hp1,
      show parseIntHex2 53 52 = some 84 from by decide,
      show parseIntHex2 54 56 = some 104 from by decide,
      show parseIntHex2 54 52 = some 100 from by decide,
      show toUint8 77 = 77 from by decide, show toUint8 84 = 84 from by decide,
      show toUint8 104 = 104 from by decide,
      show toUint8 100 = 100 from by decide] at hbytes
    rcases hu : parseHexPairs (cleanHexChars t10) with e | bs2
    · rw [hu] at hbytes; cases hbytes
    · rw [hu] at hbytes
      have hbs : bs = 77 :: 84 :: 104 :: 100 :: bs2 := (Except.ok.inj hbytes).symm
      rw [hbs]
      unfold isValidMidi
      rw [if_neg (by simp)]
      rfl

/-- Claim C7: the critical-issue classifier equals the disjunction of the
fixed keyword list and the three compound heuristics over the lower-cased
report, and classifies the two concrete example reports as the spec
states. -/
theorem claim_C7 :
    (∀ report : List Nat,
      checkForCriticalIssues report =
        (criticalIssueKeywords.any (fun k => jsIncludes (jsToLower report) k) ||
         heurSameNote (jsToLower report) || heurTrackLen (jsToLower report) ||
         heurTurnedOn (jsToLower report))) ∧
    checkForCriticalIssues (str "The MIDI has a missing note-off for note 60") = true ∧
    checkForCriticalIssues
      (str "Everything looks fine, well-formed header and matched note pairs") = false := by
  refine ⟨?_, by decide, by decide⟩
  intro report
  unfold checkForCriticalIssues
  cases h1 : heurSameNote (jsToLower report) <;>
    cases h2 : heurTrackLen (jsToLower report) <;>
      cases h3 : heurTurnedOn (jsToLower report) <;>
        cases h4 : criticalIssueKeywords.any (fun k => jsIncludes (jsToLower report) k) <;>
          simp [h1, h2, h3, h4]


/-- The invalid-marked path differs from the canonical path. -/
theorem invalid_ne_canonical (outDir pid gid tid cid : List Nat) :
    invalidPath outDir pid gid tid cid ≠ canonicalPath outDir pid gid tid cid := by
  intro h
  have hlen := congrArg List.length h
  simp only [invalidPath, canonicalPath, joinP, List.length_append, List.length_cons,
    show (str ".best-attempt.invalid.mid").length = 25 from rfl,
    show (str ".mid").length = 4 from rfl] at hlen
  omega

/-- Claim C2: when every attempt reaches LLM validation and every report
is classified critical, the generation returns a clip result without an
error, and the last attempt's bytes are written to the invalid-marked
path, which differs from the canonical path. -/
theorem claim_C2 : ∀ (collab : Collab) (pid gid tid cid outDir : List Nat)
    (mr : Nat) (fs : FS), 1 ≤ mr →
    (∀ n, 1 ≤ n → n ≤ mr → attemptCritical collab n = true) →
    ∃ hx bs r fs',
      extractMidiHex (collab.midiResponse mr) = .ok hx ∧
      hexToBytes hx = .ok bs ∧
      collab.validate mr = .ok r ∧ checkForCriticalIssues r = true ∧
      generateClipTwoPhase collab pid gid tid cid outDir mr fs =
        (.ok ⟨collab.ideaResponse, hx, bs⟩, fs') ∧
      fs'.files = (invalidPath outDir pid gid tid cid, bs) :: fs.files ∧
      invalidPath outDir pid gid tid cid ≠ canonicalPath outDir pid gid tid cid := by
  intro collab pid gid tid cid outDir mr fs h1 hall
  obtain ⟨hx, bs, r, hex, hbytes, hval, hcrit, hup, hrun⟩ :=
    loopGo_all_critical mr 0 initLoopState rfl (by omega)
      (fun k hk1 hk2 => hall k (by omega) (by omega))
  rw [Nat.zero_add] at hex hval hrun
  have hvalid : isValidMidi bs = true := hexToBytes_mthd hup hbytes
  refine ⟨hx, bs, r,
    { ensureDir fs (dirnameN (invalidPath outDir pid gid tid cid)) with
        files := (invalidPath outDir pid gid tid cid, bs) ::
          (ensureDir fs (dirnameN (invalidPath outDir pid gid tid cid))).files },
    hex, hbytes, hval, hcrit, ?_, ?_, invalid_ne_canonical _ _ _ _ _⟩
  · unfold generateClipTwoPhase
    simp only [hrun]
    have hsv : saveMidiFile bs (invalidPath outDir pid gid tid cid) fs =
        (.ok (invalidPath outDir pid gid tid cid),
         { ensureDir fs (dirnameN (invalidPath outDir pid gid tid cid)) with
             files := (invalidPath outDir pid gid tid cid, bs) ::
               (ensureDir fs (dirnameN (invalidPath outDir pid gid tid cid))).files }) := by
      unfold saveMidiFile
      rw [if_pos hvalid]
    simp only [hsv]
    simp
  · simp [ensureDir_files]

/-- Claim C2 witness: the theorem applied to a two-attempt run whose
validator always reports a critical error. -/
theorem claim_C2_witness :
    ∃ hx bs r fs',
      extractMidiHex (critCollab.midiResponse 2) = .ok hx ∧
      hexToBytes hx = .ok bs ∧
      critCollab.validate 2 = .ok r ∧ checkForCriticalIssues r = true ∧
      generateClipTwoPhase critCollab (str "p") (str "g") (str "t") (str "c")
        (str "o") 2 fs0 = (.ok ⟨critCollab.ideaResponse, hx, bs⟩, fs') ∧
      fs'.files = (invalidPath (str "o") (str "p") (str "g") (str "t") (str "c"), bs) ::
        fs0.files ∧
      invalidPath (str "o") (str "p") (str "g") (str "t") (str "c") ≠
        canonicalPath (str "o") (str "p") (str "g") (str "t") (str "c") :=
  claim_C2 critCollab (str "p") (str "g") (str "t") (str "c") (str "o") 2 fs0
    (by omega)
    (fun n hn1 hn2 => by
      have hn : n = 1 ∨ n = 2 := by omega
      rcases hn with rfl | rfl <;> decide)

/-- Claim C1 counterexample: when the first attempt's response contains
no header token, the whole generation aborts with the no-MIDI error even
though two further attempts remain (and the second response would have
succeeded) — the error is not recovered as a failed attempt. -/
theorem claim_C1_cex :
    extractMidiHex (abortCollab.midiResponse 1) = .error .noMidiFound ∧
    attemptCritical abortCollab 2 = false ∧
    generateClipTwoPhase abortCollab (str "p") (str "g") (str "t") (str "c")
      (str "o") 3 fs0 = (.error .noMidiFound, fs0) := by
  refine ⟨by decide, by decide, ?_⟩
  decide

/-- Claim C1 (amended): if every attempt before the n-th reaches LLM
validation with a critical report and the n-th attempt's extraction
fails with the no-MIDI error while attempts remain, the error propagates
out of the retry loop and `generateClipTwoPhase` rethrows it, aborting
the whole generation with nothing persisted. -/
theorem claim_C1 : ∀ (collab : Collab) (pid gid tid cid outDir : List Nat)
    (mr n : Nat) (fs : FS), 1 ≤ n → n ≤ mr →
    (∀ k, 1 ≤ k → k < n → attemptCritical collab k = true) →
    extractMidiHex (collab.midiResponse n) = .error .noMidiFound →
    generateClipTwoPhase collab pid gid tid cid outDir mr fs =
      (.error .noMidiFound, fs) := by
  intro collab pid gid tid cid outDir mr n fs h1 h2 hall hex
  have hrun := loopGo_abort mr 0 n initLoopState rfl (by omega) (by omega)
    (fun k hk1 hk2 => hall k (by omega) hk2) hex
  unfold generateClipTwoPhase
  simp only [hrun]

/-- Claim C1 witness: the amended theorem applied to a run whose first
attempt is critical and whose second response has no MIDI, with a
three-attempt budget. -/
theorem claim_C1_witness :
    generateClipTwoPhase abort2Collab (str "p") (str "g") (str "t") (str "c")
      (str "o") 3 fs0 = (.error .noMidiFound, fs0) :=
  claim_C1 abort2Collab (str "p") (str "g") (str "t") (str "c") (str "o") 3 2 fs0
    (by omega) (by omega)
    (fun k hk1 hk2 => by
      have hk : k = 1 := by omega
      subst hk
      decide)
    (by decide)

end MidiTool
